import Mathlib

/-!
Verification of the text-processing core of `src/stata_helper.py`
(class `StataHelper`): prompt enhancement, code detection, code-block
extraction, code formatting and syntax validation.

Texts are modelled as `List Char`.  Python semantics used by the source
are embedded explicitly:

* `str.split` on the newline character  → `splitNl` (splitting on every newline; the empty
  string yields one empty piece, a trailing newline yields a trailing
  empty piece);
* joining the pieces with newlines  → `joinNl`;
* `str.strip()`         → `pyStrip` (removing the Python whitespace set
  space, tab, newline, carriage return, vertical tab, form feed from both
  ends);
* `str.count(ch)`     → `List.count`;
* the regular expressions of `_contains_code` and `extract_code_blocks`
  are embedded as dedicated scanners that mirror the leftmost-match,
  scan-forward semantics of `re.search` / `re.findall` for those exact
  patterns (word boundaries over the ASCII word characters
  `[A-Za-z0-9_]`, `.` not matching a newline, `re.DOTALL` where the
  source passes it, `re.IGNORECASE` rendered by lowercasing the text,
  which is equivalent for the ASCII-only patterns involved).
-/

/-- The backquote character (code 96). -/
def backquote : Char := Char.ofNat 96

/-- The single-quote character (code 39). -/
def squote : Char := Char.ofNat 39

/-- The double-quote character (code 34). -/
def dquote : Char := Char.ofNat 34

/-- The opening-brace character (code 123). -/
def lbrace : Char := Char.ofNat 123

/-- The closing-brace character (code 125). -/
def rbrace : Char := Char.ofNat 125

/-- View a Lean string literal as the list of its characters. -/
def str (s : String) : List Char := s.toList

/-- Python's whitespace set for `str.strip` and for the regex class `\s`
(over ASCII): space, tab, newline, carriage return, vertical tab, form
feed. -/
def isPyWs (c : Char) : Bool :=
  c == ' ' || c == '\t' || c == '\n' || c == '\r' ||
    c == Char.ofNat 11 || c == Char.ofNat 12

/-- Python `str.strip()`: drop leading and trailing whitespace. -/
def pyStrip (l : List Char) : List Char :=
  ((l.dropWhile isPyWs).reverse.dropWhile isPyWs).reverse

/-- Python `str.split` at newlines: split on every newline character.  The
result is always non-empty; `""` gives `[""]`. -/
def splitNl : List Char → List (List Char)
  | [] => [[]]
  | c :: rest =>
    if c == '\n' then [] :: splitNl rest
    else
      match splitNl rest with
      | [] => [[c]]
      | l :: ls => (c :: l) :: ls

/-- Python newline join: interleave a newline between the pieces. -/
def joinNl : List (List Char) → List Char
  | [] => []
  | [l] => l
  | l :: l' :: ls => l ++ '\n' :: joinNl (l' :: ls)

/-- Decimal digit character. -/
def digitChar (n : Nat) : Char := Char.ofNat (48 + n)

/-- Fuelled decimal rendering (most significant digit first). -/
def natDigitsAux : Nat → Nat → List Char
  | 0, _ => []
  | fuel + 1, n =>
    if n < 10 then [digitChar n]
    else natDigitsAux fuel (n / 10) ++ [digitChar (n % 10)]

/-- Decimal rendering of a natural number, as Python `str(n)` produces. -/
def natChars (n : Nat) : List Char := natDigitsAux (n + 1) n

/-- The message `"Unbalanced braces: \x7b\x7d opening, \x7b\x7d closing".format(o, c)`
built in `validate_syntax`. -/
def unbalancedMsg (o c : Nat) : List Char :=
  str "Unbalanced braces: " ++ natChars o ++ str " opening, " ++
    natChars c ++ str " closing"

/-- The message `f"Unclosed quote on line \x7bi\x7d"` built in `validate_syntax`. -/
def quoteMsg (i : Nat) : List Char :=
  str "Unclosed quote on line " ++ natChars i

/-- The per-line loop of `StataHelper.validate_syntax` (source lines
173–182): enumerate lines starting at 1, strip each, and fail on the
first line whose stripped form has an odd number of `"` characters, or
else an odd number of `\x27` characters. -/
def checkQuoteLines : Nat → List (List Char) → Bool × Option (List Char)
  | _, [] => (true, none)
  | i, l :: ls =>
    let s := pyStrip l
    if s.count dquote % 2 != 0 then (false, some (quoteMsg i))
    else if s.count squote % 2 != 0 then (false, some (quoteMsg i))
    else checkQuoteLines (i + 1) ls

/-- Embedding of `StataHelper.validate_syntax` (source lines 153–184):
count `\x7b` and `\x7d` over the whole text and report an imbalance first;
otherwise run the per-line quote check. -/
def validateCode (code : List Char) : Bool × Option (List Char) :=
  let openBraces := code.count lbrace
  let closeBraces := code.count rbrace
  if openBraces != closeBraces then
    (false, some (unbalancedMsg openBraces closeBraces))
  else
    checkQuoteLines 1 (splitNl code)

/-- Modelled from the spec (claim C5's wording, for comparison with
`checkQuoteLines`): the 1-based index of the first line whose trimmed
form has an odd count of double-quote characters or an odd count of
single-quote characters. -/
def firstBadQuoteLine : Nat → List (List Char) → Option Nat
  | _, [] => none
  | i, l :: ls =>
    let s := pyStrip l
    if s.count dquote % 2 = 1 || s.count squote % 2 = 1 then some i
    else firstBadQuoteLine (i + 1) ls

/-- Modelled from the spec (claim C5's wording): scan lines in 1-based
order and return `(false, "Unclosed quote on line N")` for the first bad
line `N`, `(true, none)` when no such line exists. -/
def validateQuoteSpec (code : List Char) : Bool × Option (List Char) :=
  match firstBadQuoteLine 1 (splitNl code) with
  | some n => (false, some (quoteMsg n))
  | none => (true, none)

/-! ### `StataHelper.format_code` (source lines 120–151) -/

/-- The indentation emitted by `format_code`: `'    ' * indent_level`. -/
def indentSp (k : Nat) : List Char := List.replicate (4 * k) ' '

/-- The condition of source line 148: the stripped line ends with `\x7b`, or
starts with `foreach` or `forvalues`; when it holds, the indent level is
incremented after the line is emitted. -/
def incTrigger (s : List Char) : Bool :=
  s.getLast? == some lbrace ||
    (str "foreach").isPrefixOf s || (str "forvalues").isPrefixOf s

/-- The loop body of `format_code`: for each line, strip it; if the
stripped line starts with `\x7d` decrement the level (`max 0` via truncated
subtraction); emit `4 × level` spaces plus the stripped line when it is
non-empty, an empty line otherwise; then apply `incTrigger`. -/
def formatLines : Nat → List (List Char) → List (List Char)
  | _, [] => []
  | lvl, l :: ls =>
    let s := pyStrip l
    let lvl1 := if s.head? == some rbrace then lvl - 1 else lvl
    let out := if s.isEmpty then [] else indentSp lvl1 ++ s
    out :: formatLines (if incTrigger s then lvl1 + 1 else lvl1) ls

/-- Embedding of `StataHelper.format_code`: split on newlines, run the
indentation loop from level 0, join with newlines. -/
def format_code (code : List Char) : List Char :=
  joinNl (formatLines 0 (splitNl code))

/-- Modelled from the spec (claim C6's wording, for comparison with
`formatLines`): the same loop phrased over a signed indent level with an
explicit `max 0` floor, exactly as the claim states it. -/
def formatLinesSpec : Int → List (List Char) → List (List Char)
  | _, [] => []
  | lvl, l :: ls =>
    let s := pyStrip l
    let lvl1 := if s.head? == some rbrace then max 0 (lvl - 1) else lvl
    let out := if s.isEmpty then [] else indentSp lvl1.toNat ++ s
    out :: formatLinesSpec (if incTrigger s then lvl1 + 1 else lvl1) ls

/-- Modelled from the spec (claim C6's wording): `formatCode` as the claim
describes it. -/
def formatCodeSpec (code : List Char) : List Char :=
  joinNl (formatLinesSpec 0 (splitNl code))

/-! ### `StataHelper.extract_code_blocks` (source lines 97–118) -/

/-- The triple-backquote fence marker. -/
def fenceMarker : List Char := [backquote, backquote, backquote]

/-- Locate the earliest occurrence of the closing fence ` ``` ` in the
text: return the characters before it and the characters after it.  This
is the non-greedy capture `(.*?)` of the fenced-block pattern under
`re.DOTALL` (the capture may span newlines). -/
def splitAtFence : List Char → Option (List Char × List Char)
  | [] => none
  | c :: rest =>
    if fenceMarker.isPrefixOf (c :: rest) then some ([], rest.drop 2)
    else
      match splitAtFence rest with
      | some (pre, suf) => some (c :: pre, suf)
      | none => none

/-- Try to match the fenced-block pattern ` ```(?:stata|do)?\n(.*?)``` ` at
the start of `t`: an opening fence, an optional language tag `stata` or
`do`, a newline, then the non-greedy capture up to the earliest closing
fence.  Returns the capture and the text after the closing fence.  The
three tag alternatives are mutually exclusive here, so trying them in
order is exactly the regex's backtracking behaviour. -/
def tryFence (t : List Char) : Option (List Char × List Char) :=
  if fenceMarker.isPrefixOf t then
    let r := t.drop 3
    if (str "stata\n").isPrefixOf r then splitAtFence (r.drop 6)
    else if (str "do\n").isPrefixOf r then splitAtFence (r.drop 3)
    else if r.head? == some '\n' then splitAtFence (r.drop 1)
    else none
  else none

/-- Scanning pass of `re.findall` for the fenced-block pattern: try a match at every
position from left to right; on success emit the capture and resume after
the consumed match, otherwise advance one character.  Fuelled recursion
(each step consumes at least one character, so fuel `≥ length` is
exact). -/
def fencedAux : Nat → List Char → List (List Char)
  | 0, _ => []
  | fuel + 1, t =>
    match t with
    | [] => []
    | c :: rest =>
      match tryFence (c :: rest) with
      | some (cap, after) => cap :: fencedAux fuel after
      | none => fencedAux fuel rest

/-- All captures of `re.findall(r'```(?:stata|do)?\n(.*?)```', text, re.DOTALL)`
in document order. -/
def fencedFindAll (t : List Char) : List (List Char) := fencedAux t.length t

/-- Scanning pass of `re.findall` for the inline pattern `` `([^`]+)` ``: at each backquote,
the capture is the maximal non-empty run of non-backquote characters
followed by a closing backquote; scanning resumes after the closing
backquote.  An empty run or a missing closing backquote is a failed match
at that position and scanning advances one character. -/
def inlineAux : Nat → List Char → List (List Char)
  | 0, _ => []
  | fuel + 1, t =>
    match t with
    | [] => []
    | c :: rest =>
      if c == backquote then
        let run := rest.takeWhile (fun d => !(d == backquote))
        match rest.dropWhile (fun d => !(d == backquote)) with
        | [] => []
        | _ :: after =>
          if run.isEmpty then inlineAux fuel rest else run :: inlineAux fuel after
      else inlineAux fuel rest

/-- All captures of `` re.findall(r'`([^`]+)`', text) `` in document
order. -/
def inlineFindAll (t : List Char) : List (List Char) := inlineAux t.length t

/-- Embedding of `StataHelper.extract_code_blocks`: fenced captures first,
then inline captures taken from the original full text, each stripped,
whitespace-only results dropped. -/
def extract_code_blocks (t : List Char) : List (List Char) :=
  ((fencedFindAll t ++ inlineFindAll t).map pyStrip).filter (fun b => !b.isEmpty)

/-! ### `StataHelper._contains_code` (source lines 76–95)

The ten patterns are searched with `re.search(..., re.IGNORECASE)`; the
method returns true as soon as one matches.  Since only a boolean is
produced, this is the disjunction of "pattern matches somewhere",
evaluated on the lowercased text. -/

/-- A regex word character (ASCII): letter, digit or underscore. -/
def isWordChar (c : Char) : Bool := c.isAlpha || c.isDigit || c == '_'

/-- Whether the position after `prev` is a word boundary coming from a
non-word side: true at the start of the text (`none`) or after a non-word
character. -/
def prevNonWord : Option Char → Bool
  | none => true
  | some ch => !(isWordChar ch)

/-- True when the text is exhausted or starts with a non-word character:
the word-boundary test on the right edge of a keyword. -/
def nonWordStart (t : List Char) : Bool :=
  match t.head? with
  | none => true
  | some ch => !(isWordChar ch)

/-- True when the list is empty or its last character is a non-word
character. -/
def nonWordEnd (t : List Char) : Bool :=
  match t.getLast? with
  | none => true
  | some ch => !(isWordChar ch)

/-- Word-bounded match of `\bkw\b` at the current position: `kw` is a prefix of the
remaining text, the previous character (if any) is a non-word character,
and so is the character after the keyword (if any). -/
def wordPrefixOk (kw : List Char) (prev : Option Char) (t : List Char) : Bool :=
  kw.isPrefixOf t && prevNonWord prev && nonWordStart (t.drop kw.length)

/-- Search `re.search(r'\bkw\b', text)` as a scan: try a word-bounded match at
every position. -/
def findWord (kw : List Char) : Option Char → List Char → Bool
  | _, [] => false
  | prev, c :: rest => wordPrefixOk kw prev (c :: rest) || findWord kw (some c) rest

/-- The `.*\bthen\b` tail of the if/then pattern: scan forward for a
word-bounded `then`, stopping at a newline (without `re.DOTALL`, `.` does
not match `'\n'`). -/
def searchThenTok : Option Char → List Char → Bool
  | _, [] => false
  | prev, c :: rest =>
    wordPrefixOk (str "then") prev (c :: rest) ||
      (!(c == '\n') && searchThenTok (some c) rest)

/-- Search `re.search(r'\bif\b.*\bthen\b', text)`: at every position try a
word-bounded `if` followed, on the same line, by a word-bounded `then`. -/
def ifThenSearch : Option Char → List Char → Bool
  | _, [] => false
  | prev, c :: rest =>
    (wordPrefixOk (str "if") prev (c :: rest) && searchThenTok (some 'f') (rest.drop 1)) ||
      ifThenSearch (some c) rest

/-- The `\s*=\s*` tail of the assignment pattern: since the trailing `\s*`
always matches, this is "optional whitespace, then `=`". -/
def spacesThenEq : List Char → Bool
  | [] => false
  | c :: rest => c == '=' || (isPyWs c && spacesThenEq rest)

/-- Search `re.search(r'[a-z_]+\s*=\s*', text, re.IGNORECASE)`: somewhere a
letter or underscore is followed by optional whitespace and `=`
(the leading `+` needs only its last repetition). -/
def assignSearch : List Char → Bool
  | [] => false
  | c :: rest => ((c.isAlpha || c == '_') && spacesThenEq rest) || assignSearch rest

/-- The `\s*[A-Za-z]` tail of the comment pattern: skip whitespace, then a
letter. -/
def spacesThenLetter : List Char → Bool
  | [] => false
  | c :: rest => c.isAlpha || (isPyWs c && spacesThenLetter rest)

/-- Search `re.search(r'\*\s*[A-Za-z]', text)`: a star followed by optional
whitespace and a letter. -/
def commentSearch : List Char → Bool
  | [] => false
  | c :: rest => (c == '*' && spacesThenLetter rest) || commentSearch rest

/-- Embedding of `StataHelper._contains_code`: the disjunction of the ten
patterns of `stata_patterns`, each searched case-insensitively. -/
def contains_code (t : List Char) : Bool :=
  let low := t.map Char.toLower
  findWord (str "regress") none low || findWord (str "summarize") none low ||
  findWord (str "generate") none low || findWord (str "tabulate") none low ||
  findWord (str "foreach") none low || findWord (str "forvalues") none low ||
  ifThenSearch none low ||
  findWord (str "di") none low || findWord (str "display") none low ||
  assignSearch low || commentSearch low

/-! ### `StataHelper.enhance_prompt` (source lines 55–74) and the
constants of `__init__` (source lines 13–53) -/

/-- The raw triple-quoted string returned by `_load_stata_context` before
`.strip()` (source lines 41–53), character for character. -/
def stataContextRaw : List Char :=
  str "\nYou are a Stata programming assistant. Stata is a statistical software package \nused for data analysis, data management, and graphics. When helping with Stata code:\n\n1. Use proper Stata syntax and conventions\n2. Consider data management best practices\n3. Be aware of common Stata commands and their options\n4. Provide clear, efficient, and well-commented code\n5. Consider memory efficiency and performance\n6. Follow Stata\x27s naming conventions (lowercase for variables and commands)\n7. Use appropriate data types and formats\n8. Consider using -preserve- and -restore- when making temporary changes\n        "

/-- The DomainContext constant: the stripped context text stored in
`self.stata_context`. -/
def stataContext : List Char := pyStrip stataContextRaw

/-- The introductory line inserted when the prompt appears to contain
code (source line 70). -/
def codeIntro : List Char := str "Here is the Stata code to analyze:\n\n"

/-- Embedding of `StataHelper.enhance_prompt`, mirroring the source's
accumulation: context plus blank line, then optionally the introductory
line, then the user's prompt. -/
def enhance_prompt (user_prompt : List Char) : List Char :=
  let enhanced := stataContext ++ str "\n\n"
  let enhanced :=
    if contains_code user_prompt then enhanced ++ codeIntro else enhanced
  enhanced ++ user_prompt

/-- The `common_commands` table built by `_load_common_commands` (source
lines 18–37). -/
def commandTable : List (List Char × List Char) :=
  [(str "regress", str "Linear regression"),
   (str "summarize", str "Summary statistics"),
   (str "tabulate", str "Frequency tables"),
   (str "generate", str "Create new variables"),
   (str "replace", str "Replace variable values"),
   (str "drop", str "Drop variables or observations"),
   (str "keep", str "Keep variables or observations"),
   (str "merge", str "Merge datasets"),
   (str "append", str "Append datasets"),
   (str "collapse", str "Make dataset of summary statistics"),
   (str "reshape", str "Convert data from wide to long or vice versa"),
   (str "foreach", str "Loop over items"),
   (str "forvalues", str "Loop over consecutive values"),
   (str "if", str "Conditional execution"),
   (str "egen", str "Extensions to generate"),
   (str "bysort", str "Sort and process by groups")]

/-- The instance state set up by `StataHelper.__init__` and never written
afterwards: the command catalog and the domain-context text. -/
structure StataHelperState where
  common_commands : List (List Char × List Char)
  stata_context : List Char
deriving DecidableEq

/-- The state after construction, `StataHelper()`. -/
def StataHelperState.init : StataHelperState :=
  { common_commands := commandTable, stata_context := stataContext }

/-- Method view of `enhance_prompt`: the result together with the
post-call state.  The method body reads `self.stata_context` and assigns
no attribute, so the state is returned as received. -/
def StataHelperState.enhancePromptM (h : StataHelperState) (t : List Char) :
    List Char × StataHelperState :=
  (let enhanced := h.stata_context ++ str "\n\n"
   let enhanced := if contains_code t then enhanced ++ codeIntro else enhanced
   enhanced ++ t, h)

/-- Method view of `_contains_code`: reads no attribute, assigns none. -/
def StataHelperState.containsCodeM (h : StataHelperState) (t : List Char) :
    Bool × StataHelperState :=
  (contains_code t, h)

/-- Method view of `extract_code_blocks`: reads no attribute, assigns
none. -/
def StataHelperState.extractCodeBlocksM (h : StataHelperState) (t : List Char) :
    List (List Char) × StataHelperState :=
  (extract_code_blocks t, h)

/-- Method view of `format_code`: reads no attribute, assigns none. -/
def StataHelperState.formatCodeM (h : StataHelperState) (t : List Char) :
    List Char × StataHelperState :=
  (format_code t, h)

/-- Method view of `validate_syntax`: reads no attribute, assigns none. -/
def StataHelperState.validateCodeM (h : StataHelperState) (t : List Char) :
    (Bool × Option (List Char)) × StataHelperState :=
  (validateCode t, h)

/-! ### Lemmas about `splitNl` and `joinNl` -/

lemma splitNl_cons (c : Char) (rest : List Char) :
    splitNl (c :: rest) =
      if c == '\n' then [] :: splitNl rest
      else
        match splitNl rest with
        | [] => [[c]]
        | l :: ls => (c :: l) :: ls := rfl

lemma splitNl_ne_nil (t : List Char) : splitNl t ≠ [] := by
  cases t with
  | nil => simp [splitNl]
  | cons c rest =>
    rw [splitNl_cons]
    split
    · simp
    · split <;> simp

lemma noNl_of_mem_splitNl (t : List Char) :
    ∀ l ∈ splitNl t, '\n' ∉ l := by
  induction t with
  | nil => simp [splitNl]
  | cons c rest ih =>
    intro l hl
    rw [splitNl_cons] at hl
    by_cases hc : (c == '\n') = true
    · rw [if_pos hc] at hl
      rcases List.mem_cons.mp hl with h | h
      · simp [h]
      · exact ih l h
    · rw [if_neg hc] at hl
      rcases hsp : splitNl rest with _ | ⟨a, as⟩
      · exact absurd hsp (splitNl_ne_nil rest)
      · rw [hsp] at hl
        rcases List.mem_cons.mp hl with h | h
        · subst h
          intro hmem
          rcases List.mem_cons.mp hmem with h | h
          · exact hc (by simp [h.symm])
          · exact ih a (hsp ▸ List.mem_cons_self a as) h
        · exact ih l (hsp ▸ List.mem_cons_of_mem a h)

lemma splitNl_of_noNl (l : List Char) (h : '\n' ∉ l) : splitNl l = [l] := by
  induction l with
  | nil => rfl
  | cons c rest ih =>
    have hc : ¬((c == '\n') = true) := by
      simp only [beq_iff_eq]
      intro hEq
      exact h (hEq ▸ List.mem_cons_self c rest)
    have hrest : '\n' ∉ rest := fun hm => h (List.mem_cons_of_mem c hm)
    rw [splitNl_cons, if_neg hc, ih hrest]

lemma splitNl_append_cons (l r : List Char) (h : '\n' ∉ l) :
    splitNl (l ++ '\n' :: r) = l :: splitNl r := by
  induction l with
  | nil => simp [splitNl]
  | cons c l' ih =>
    have hc : ¬((c == '\n') = true) := by
      simp only [beq_iff_eq]
      intro hEq
      exact h (hEq ▸ List.mem_cons_self c l')
    have hl' : '\n' ∉ l' := fun hm => h (List.mem_cons_of_mem c hm)
    show splitNl (c :: (l' ++ '\n' :: r)) = (c :: l') :: splitNl r
    rw [splitNl_cons, if_neg hc, ih hl']

lemma joinNl_splitNl (t : List Char) : joinNl (splitNl t) = t := by
  induction t with
  | nil => rfl
  | cons c rest ih =>
    rw [splitNl_cons]
    by_cases hc : (c == '\n') = true
    · rw [if_pos hc]
      rcases hsp : splitNl rest with _ | ⟨a, as⟩
      · exact absurd hsp (splitNl_ne_nil rest)
      · have : joinNl ([] :: a :: as) = '\n' :: joinNl (a :: as) := rfl
        rw [this, ← hsp, ih]
        simp [beq_iff_eq] at hc
        rw [hc]
    · rw [if_neg hc]
      rcases hsp : splitNl rest with _ | ⟨a, as⟩
      · exact absurd hsp (splitNl_ne_nil rest)
      · cases as with
        | nil =>
          show c :: a = c :: rest
          have : joinNl (splitNl rest) = rest := ih
          rw [hsp] at this
          exact congrArg (c :: ·) this
        | cons a2 as2 =>
          show (c :: a) ++ '\n' :: joinNl (a2 :: as2) = c :: rest
          have : joinNl (splitNl rest) = rest := ih
          rw [hsp] at this
          show c :: (a ++ '\n' :: joinNl (a2 :: as2)) = c :: rest
          exact congrArg (c :: ·) this

lemma splitNl_joinNl (ls : List (List Char)) (hne : ls ≠ [])
    (h : ∀ l ∈ ls, '\n' ∉ l) : splitNl (joinNl ls) = ls := by
  induction ls with
  | nil => exact absurd rfl hne
  | cons l ls' ih =>
    cases ls' with
    | nil =>
      show splitNl (joinNl [l]) = [l]
      exact splitNl_of_noNl l (h l (List.mem_cons_self l []))
    | cons l2 ls2 =>
      show splitNl (l ++ '\n' :: joinNl (l2 :: ls2)) = l :: l2 :: ls2
      rw [splitNl_append_cons l _ (h l (List.mem_cons_self l _))]
      rw [ih (by simp) (fun x hx => h x (List.mem_cons_of_mem l hx))]

/-! ### Lemmas about `pyStrip` -/

lemma dropWhile_ws_prepend (pre s : List Char) (h : ∀ c ∈ pre, isPyWs c = true) :
    (pre ++ s).dropWhile isPyWs = s.dropWhile isPyWs := by
  induction pre with
  | nil => rfl
  | cons c pre' ih =>
    show ((c :: (pre' ++ s)).dropWhile isPyWs) = s.dropWhile isPyWs
    rw [List.dropWhile_cons, if_pos (h c (List.mem_cons_self c pre'))]
    exact ih (fun x hx => h x (List.mem_cons_of_mem c hx))

lemma pyStrip_nil : pyStrip [] = [] := rfl

lemma pyStrip_indent (k : Nat) (s : List Char) :
    pyStrip (indentSp k ++ s) = pyStrip s := by
  unfold pyStrip
  rw [dropWhile_ws_prepend]
  intro c hc
  rw [List.eq_of_mem_replicate hc]
  decide

lemma dropWhile_head?_false (p : Char → Bool) (l : List Char) (c : Char)
    (h : (l.dropWhile p).head? = some c) : p c = false := by
  induction l with
  | nil => simp [List.dropWhile] at h
  | cons a rest ih =>
    rw [List.dropWhile_cons] at h
    by_cases hp : p a = true
    · rw [if_pos hp] at h
      exact ih h
    · rw [if_neg hp] at h
      have : a = c := by simpa using h
      subst this
      exact Bool.eq_false_iff.mpr hp

lemma dropWhile_dropWhile (p : Char → Bool) (l : List Char) :
    (l.dropWhile p).dropWhile p = l.dropWhile p := by
  rcases h : l.dropWhile p with _ | ⟨a, as⟩
  · rfl
  · have ha : p a = false :=
      dropWhile_head?_false p l a (by rw [h]; rfl)
    rw [List.dropWhile_cons, ha]
    simp

lemma pyStrip_prefix_dropWhile (l : List Char) :
    pyStrip l <+: l.dropWhile isPyWs := by
  rw [← List.reverse_suffix]
  show ((((l.dropWhile isPyWs).reverse.dropWhile isPyWs)).reverse).reverse <:+
    (l.dropWhile isPyWs).reverse
  rw [List.reverse_reverse]
  exact List.dropWhile_suffix isPyWs

lemma pyStrip_idem (l : List Char) : pyStrip (pyStrip l) = pyStrip l := by
  have he_rev : (pyStrip l).reverse = (l.dropWhile isPyWs).reverse.dropWhile isPyWs := by
    unfold pyStrip
    rw [List.reverse_reverse]
  have stepA : (pyStrip l).dropWhile isPyWs = pyStrip l := by
    rcases he : pyStrip l with _ | ⟨a, e'⟩
    · rfl
    · have hpre : pyStrip l <+: l.dropWhile isPyWs := pyStrip_prefix_dropWhile l
      rw [he] at hpre
      obtain ⟨t, ht⟩ := hpre
      have hhead : (l.dropWhile isPyWs).head? = some a := by
        rw [← ht]; rfl
      have ha : isPyWs a = false := dropWhile_head?_false isPyWs l a hhead
      rw [List.dropWhile_cons, ha]
      simp
  have stepB : (pyStrip l).reverse.dropWhile isPyWs = (pyStrip l).reverse := by
    rw [he_rev, dropWhile_dropWhile]
  show (((pyStrip l).dropWhile isPyWs).reverse.dropWhile isPyWs).reverse = pyStrip l
  rw [stepA, stepB, List.reverse_reverse]

lemma mem_pyStrip (l : List Char) (c : Char) (h : c ∈ pyStrip l) : c ∈ l := by
  unfold pyStrip at h
  rw [List.mem_reverse] at h
  have h2 : c ∈ (l.dropWhile isPyWs).reverse := (List.dropWhile_sublist isPyWs).subset h
  rw [List.mem_reverse] at h2
  exact (List.dropWhile_sublist isPyWs).subset h2

lemma pyStrip_noNl (l : List Char) (h : '\n' ∉ l) : '\n' ∉ pyStrip l :=
  fun hc => h (mem_pyStrip l _ hc)

/-! ### Lemmas about `formatLines` -/

lemma formatLines_length (lvl : Nat) (ls : List (List Char)) :
    (formatLines lvl ls).length = ls.length := by
  induction ls generalizing lvl with
  | nil => rfl
  | cons l ls' ih =>
    unfold formatLines
    simp [ih]

lemma formatLines_ne_nil (lvl : Nat) (ls : List (List Char)) (h : ls ≠ []) :
    formatLines lvl ls ≠ [] := by
  cases ls with
  | nil => exact absurd rfl h
  | cons l ls' => unfold formatLines; simp

lemma formatLines_map_pyStrip (lvl : Nat) (ls : List (List Char)) :
    (formatLines lvl ls).map pyStrip = ls.map pyStrip := by
  induction ls generalizing lvl with
  | nil => rfl
  | cons l ls' ih =>
    unfold formatLines
    simp only [List.map_cons]
    refine congrArg₂ (· :: ·) ?_ (ih _)
    by_cases hs : (pyStrip l).isEmpty = true
    · rw [if_pos hs]
      rw [List.isEmpty_iff] at hs
      rw [hs]
      rfl
    · rw [if_neg hs]
      rw [pyStrip_indent, pyStrip_idem]

lemma formatLines_congr (lvl : Nat) (ls₁ ls₂ : List (List Char))
    (h : ls₁.map pyStrip = ls₂.map pyStrip) :
    formatLines lvl ls₁ = formatLines lvl ls₂ := by
  induction ls₁ generalizing ls₂ lvl with
  | nil =>
    cases ls₂ with
    | nil => rfl
    | cons l ls' => simp at h
  | cons l ls' ih =>
    cases ls₂ with
    | nil => simp at h
    | cons m ms =>
      simp only [List.map_cons, List.cons.injEq] at h
      obtain ⟨hhead, htail⟩ := h
      unfold formatLines
      rw [hhead]
      exact congrArg (_ :: ·) (ih _ ms htail)

lemma formatLines_noNl (lvl : Nat) (ls : List (List Char))
    (h : ∀ l ∈ ls, '\n' ∉ l) : ∀ m ∈ formatLines lvl ls, '\n' ∉ m := by
  induction ls generalizing lvl with
  | nil => simp [formatLines]
  | cons l ls' ih =>
    intro m hm
    unfold formatLines at hm
    rcases List.mem_cons.mp hm with hout | htail
    · subst hout
      by_cases hs : (pyStrip l).isEmpty = true
      · rw [if_pos hs]; simp
      · rw [if_neg hs]
        intro hmem
        rcases List.mem_append.mp hmem with hin | hin
        · have := List.eq_of_mem_replicate hin
          simp at this
        · exact pyStrip_noNl l (h l (List.mem_cons_self l ls')) hin
    · exact ih _ (fun x hx => h x (List.mem_cons_of_mem l hx)) _ htail

lemma splitNl_format_code (c : List Char) :
    splitNl (format_code c) = formatLines 0 (splitNl c) := by
  unfold format_code
  exact splitNl_joinNl _
    (formatLines_ne_nil 0 _ (splitNl_ne_nil c))
    (formatLines_noNl 0 _ (noNl_of_mem_splitNl c))

/-! ### The quote scan agrees with the spec's description (claim C5) -/

lemma checkQuoteLines_cons (i : Nat) (l : List Char) (ls : List (List Char)) :
    checkQuoteLines i (l :: ls) =
      if (pyStrip l).count dquote % 2 != 0 then (false, some (quoteMsg i))
      else if (pyStrip l).count squote % 2 != 0 then (false, some (quoteMsg i))
      else checkQuoteLines (i + 1) ls := rfl

lemma firstBadQuoteLine_cons (i : Nat) (l : List Char) (ls : List (List Char)) :
    firstBadQuoteLine i (l :: ls) =
      if (pyStrip l).count dquote % 2 = 1 || (pyStrip l).count squote % 2 = 1 then
        some i
      else firstBadQuoteLine (i + 1) ls := rfl

lemma checkQuoteLines_eq_firstBad (ls : List (List Char)) : ∀ i : Nat,
    checkQuoteLines i ls =
      match firstBadQuoteLine i ls with
      | some n => (false, some (quoteMsg n))
      | none => (true, none) := by
  induction ls with
  | nil => intro i; rfl
  | cons l ls' ih =>
    intro i
    rw [checkQuoteLines_cons, firstBadQuoteLine_cons]
    rcases Nat.mod_two_eq_zero_or_one ((pyStrip l).count dquote) with hd | hd <;>
      rcases Nat.mod_two_eq_zero_or_one ((pyStrip l).count squote) with hs | hs <;>
        simp [hd, hs, ih]

/-! ### `formatLines` agrees with the spec's signed-level description
(claim C6) -/

lemma formatLines_cons (lvl : Nat) (l : List Char) (ls : List (List Char)) :
    formatLines lvl (l :: ls) =
      (if (pyStrip l).isEmpty then []
       else indentSp (if (pyStrip l).head? == some rbrace then lvl - 1 else lvl) ++ pyStrip l) ::
      formatLines
        (if incTrigger (pyStrip l) then
          (if (pyStrip l).head? == some rbrace then lvl - 1 else lvl) + 1
         else if (pyStrip l).head? == some rbrace then lvl - 1 else lvl) ls := rfl

lemma formatLinesSpec_cons (lvl : Int) (l : List Char) (ls : List (List Char)) :
    formatLinesSpec lvl (l :: ls) =
      (if (pyStrip l).isEmpty then []
       else
        indentSp
          (if (pyStrip l).head? == some rbrace then max 0 (lvl - 1) else lvl).toNat ++
          pyStrip l) ::
      formatLinesSpec
        (if incTrigger (pyStrip l) then
          (if (pyStrip l).head? == some rbrace then max 0 (lvl - 1) else lvl) + 1
         else if (pyStrip l).head? == some rbrace then max 0 (lvl - 1) else lvl) ls := rfl

lemma formatLinesSpec_eq (ls : List (List Char)) :
    ∀ n : Nat, formatLinesSpec (n : Int) ls = formatLines n ls := by
  induction ls with
  | nil => intro n; rfl
  | cons l ls' ih =>
    intro n
    rw [formatLinesSpec_cons, formatLines_cons]
    have hlvl : (if (pyStrip l).head? == some rbrace then max 0 ((n : Int) - 1) else (n : Int)) =
        (((if (pyStrip l).head? == some rbrace then n - 1 else n : Nat) : Int)) := by
      by_cases hb : ((pyStrip l).head? == some rbrace) = true
      · rw [if_pos hb, if_pos hb]; omega
      · rw [if_neg hb, if_neg hb]
    rw [hlvl]
    have htn : (((if (pyStrip l).head? == some rbrace then n - 1 else n : Nat) : Int)).toNat =
        (if (pyStrip l).head? == some rbrace then n - 1 else n : Nat) := by omega
    rw [htn]
    refine congrArg₂ (· :: ·) rfl ?_
    by_cases ht : incTrigger (pyStrip l) = true
    · rw [if_pos ht, if_pos ht]
      have : (((if (pyStrip l).head? == some rbrace then n - 1 else n : Nat) : Int)) + 1 =
          (((if (pyStrip l).head? == some rbrace then n - 1 else n : Nat) + 1 : Nat) : Int) := by
        omega
      rw [this, ih]
    · rw [if_neg ht, if_neg ht, ih]

/-! ### Identity cases of the formatter and extractor (claim C7) -/

lemma inlineAux_no_backquote (fuel : Nat) (t : List Char) (h : backquote ∉ t) :
    inlineAux fuel t = [] := by
  induction fuel generalizing t with
  | zero => rfl
  | succ f ih =>
    cases t with
    | nil => rfl
    | cons c rest =>
      have hc : ¬((c == backquote) = true) := by
        rw [beq_iff_eq]
        intro hEq
        exact h (hEq ▸ List.mem_cons_self c rest)
      show (if c == backquote then _ else inlineAux f rest) = []
      rw [if_neg hc]
      exact ih rest (fun hm => h (List.mem_cons_of_mem c hm))

lemma tryFence_none_of_head (c : Char) (rest : List Char) (hc : c ≠ backquote) :
    tryFence (c :: rest) = none := by
  have : fenceMarker.isPrefixOf (c :: rest) = false := by
    simp only [fenceMarker, List.isPrefixOf, Bool.and_eq_false_iff, beq_eq_false_iff_ne]
    exact Or.inl (Ne.symm hc)
  unfold tryFence
  rw [this]
  rfl

lemma fencedAux_no_backquote (fuel : Nat) (t : List Char) (h : backquote ∉ t) :
    fencedAux fuel t = [] := by
  induction fuel generalizing t with
  | zero => rfl
  | succ f ih =>
    cases t with
    | nil => rfl
    | cons c rest =>
      have hc : c ≠ backquote := fun hEq => h (hEq ▸ List.mem_cons_self c rest)
      show (match tryFence (c :: rest) with
        | some (cap, after) => cap :: fencedAux f after
        | none => fencedAux f rest) = []
      rw [tryFence_none_of_head c rest hc]
      exact ih rest (fun hm => h (List.mem_cons_of_mem c hm))

lemma extract_code_blocks_no_backquote (t : List Char) (h : backquote ∉ t) :
    extract_code_blocks t = [] := by
  unfold extract_code_blocks fencedFindAll inlineFindAll
  rw [fencedAux_no_backquote _ _ h, inlineAux_no_backquote _ _ h]
  rfl

lemma formatLines_id (ls : List (List Char))
    (h : ∀ l ∈ ls, pyStrip l = l ∧ incTrigger l = false) :
    formatLines 0 ls = ls := by
  induction ls with
  | nil => rfl
  | cons l ls' ih =>
    obtain ⟨hst, htr⟩ := h l (List.mem_cons_self l ls')
    rw [formatLines_cons, hst, htr]
    have hz : (if l.head? == some rbrace then 0 - 1 else 0 : Nat) = 0 := by
      split <;> rfl
    rw [hz]
    simp only [if_false, Bool.false_eq_true]
    refine congrArg₂ (· :: ·) ?_ (ih (fun x hx => h x (List.mem_cons_of_mem l hx)))
    by_cases he : l.isEmpty = true
    · rw [if_pos he]
      rw [List.isEmpty_iff] at he
      exact he.symm
    · rw [if_neg he]
      rfl

lemma format_code_id (t : List Char)
    (h : ∀ l ∈ splitNl t, pyStrip l = l ∧ incTrigger l = false) :
    format_code t = t := by
  unfold format_code
  rw [formatLines_id _ h, joinNl_splitNl]

/-! ### The if/then pattern fires on word-bounded same-line occurrences
(claim C3, amended) -/

lemma wordPrefixOk_append (kw rest : List Char) (prev : Option Char) :
    wordPrefixOk kw prev (kw ++ rest) = (prevNonWord prev && nonWordStart rest) := by
  unfold wordPrefixOk
  have h1 : kw.isPrefixOf (kw ++ rest) = true :=
    List.isPrefixOf_iff_prefix.mpr (List.prefix_append kw rest)
  rw [h1, List.drop_left]
  simp

lemma nonWordStart_append (b z : List Char) (hb : b ≠ []) :
    nonWordStart (b ++ z) = nonWordStart b := by
  cases b with
  | nil => exact absurd rfl hb
  | cons x b' => rfl

lemma nonWordEnd_cons_cons (a b : Char) (l : List Char) :
    nonWordEnd (a :: b :: l) = nonWordEnd (b :: l) := by
  unfold nonWordEnd
  rw [List.getLast?_cons_cons]

lemma searchThenTok_cons (prev : Option Char) (c : Char) (rest : List Char) :
    searchThenTok prev (c :: rest) =
      (wordPrefixOk (str "then") prev (c :: rest) ||
        (!(c == '\n') && searchThenTok (some c) rest)) := rfl

lemma ifThenSearch_cons (prev : Option Char) (c : Char) (rest : List Char) :
    ifThenSearch prev (c :: rest) =
      ((wordPrefixOk (str "if") prev (c :: rest) &&
          searchThenTok (some 'f') (rest.drop 1)) ||
        ifThenSearch (some c) rest) := rfl

lemma searchThenTok_head (prev : Option Char) (c2 : List Char)
    (hp : prevNonWord prev = true) (hc : nonWordStart c2 = true) :
    searchThenTok prev (str "then" ++ c2) = true := by
  have hsplit : str "then" ++ c2 = 't' :: ('h' :: 'e' :: 'n' :: [] ++ c2) := rfl
  rw [hsplit, searchThenTok_cons, ← hsplit, wordPrefixOk_append, hp, hc]
  simp

lemma searchThenTok_found (c2 : List Char) (hc : nonWordStart c2 = true) :
    ∀ b : List Char, b ≠ [] → (∀ ch ∈ b, ch ≠ '\n') → nonWordEnd b = true →
    ∀ prev : Option Char, searchThenTok prev (b ++ (str "then" ++ c2)) = true := by
  intro b
  induction b with
  | nil => intro h; exact absurd rfl h
  | cons x b' ih =>
    intro _ hnl hend prev
    show searchThenTok prev (x :: (b' ++ (str "then" ++ c2))) = true
    rw [searchThenTok_cons]
    have hx : (x == '\n') = false := by
      rw [beq_eq_false_iff_ne]
      exact hnl x (List.mem_cons_self x b')
    cases b' with
    | nil =>
      have hxw : prevNonWord (some x) = true := by
        simpa [nonWordEnd, prevNonWord] using hend
      have hmain : searchThenTok (some x) (([] : List Char) ++ (str "then" ++ c2)) = true := by
        show searchThenTok (some x) (str "then" ++ c2) = true
        exact searchThenTok_head (some x) c2 hxw hc
      rw [hmain, hx]
      simp
    | cons y b'' =>
      have hmain : searchThenTok (some x) ((y :: b'') ++ (str "then" ++ c2)) = true :=
        ih (by simp) (fun ch hch => hnl ch (List.mem_cons_of_mem x hch))
          (by rw [← nonWordEnd_cons_cons x y b'']; exact hend) (some x)
      rw [hmain, hx]
      simp

lemma ifThenSearch_head (prev : Option Char) (b c2 : List Char)
    (hp : prevNonWord prev = true) (hb : b ≠ []) (hbs : nonWordStart b = true)
    (hbl : ∀ ch ∈ b, ch ≠ '\n') (hbe : nonWordEnd b = true)
    (hc : nonWordStart c2 = true) :
    ifThenSearch prev (str "if" ++ (b ++ (str "then" ++ c2))) = true := by
  have hsplit : str "if" ++ (b ++ (str "then" ++ c2)) =
      'i' :: ('f' :: (b ++ (str "then" ++ c2))) := rfl
  rw [hsplit, ifThenSearch_cons, ← hsplit, wordPrefixOk_append, hp]
  have hdrop : ('f' :: (b ++ (str "then" ++ c2))).drop 1 = b ++ (str "then" ++ c2) := rfl
  rw [hdrop, nonWordStart_append _ _ hb, hbs,
    searchThenTok_found c2 hc b hb hbl hbe (some 'f')]
  simp

lemma ifThenSearch_found (b c2 : List Char) (hb : b ≠ []) (hbs : nonWordStart b = true)
    (hbl : ∀ ch ∈ b, ch ≠ '\n') (hbe : nonWordEnd b = true)
    (hc : nonWordStart c2 = true) :
    ∀ (a : List Char) (prev : Option Char),
      (a = [] → prevNonWord prev = true) →
      (∀ x, a.getLast? = some x → isWordChar x = false) →
      ifThenSearch prev (a ++ (str "if" ++ (b ++ (str "then" ++ c2)))) = true := by
  intro a
  induction a with
  | nil =>
    intro prev h1 _
    show ifThenSearch prev (str "if" ++ (b ++ (str "then" ++ c2))) = true
    exact ifThenSearch_head prev b c2 (h1 rfl) hb hbs hbl hbe hc
  | cons y a' ih =>
    intro prev h1 h2
    show ifThenSearch prev (y :: (a' ++ (str "if" ++ (b ++ (str "then" ++ c2))))) = true
    rw [ifThenSearch_cons]
    have hmain : ifThenSearch (some y) (a' ++ (str "if" ++ (b ++ (str "then" ++ c2)))) = true := by
      apply ih (some y)
      · intro ha'
        subst ha'
        have : ([y] : List Char).getLast? = some y := rfl
        simp [prevNonWord, h2 y this]
      · intro x hx
        apply h2 x
        cases a' with
        | nil => simp at hx
        | cons z a'' => rw [List.getLast?_cons_cons]; exact hx
    rw [hmain]
    simp

lemma contains_code_def (t : List Char) :
    contains_code t =
      (findWord (str "regress") none (t.map Char.toLower) ||
       findWord (str "summarize") none (t.map Char.toLower) ||
       findWord (str "generate") none (t.map Char.toLower) ||
       findWord (str "tabulate") none (t.map Char.toLower) ||
       findWord (str "foreach") none (t.map Char.toLower) ||
       findWord (str "forvalues") none (t.map Char.toLower) ||
       ifThenSearch none (t.map Char.toLower) ||
       findWord (str "di") none (t.map Char.toLower) ||
       findWord (str "display") none (t.map Char.toLower) ||
       assignSearch (t.map Char.toLower) ||
       commentSearch (t.map Char.toLower)) := rfl

/-! ### Claim theorems -/

/-- C1: on the repo test's "valid" three-line input
`"foreach var of varlist x1 x2 \x7b \n summarize \x60var\x27 \n \x7d"` the claim
(and the repo's own test `test_validate_syntax_balanced_braces`) expects
`(true, none)`, but `validate_syntax` returns
`(false, "Unclosed quote on line 2")`, because the stripped second line
`summarize \x60var\x27` contains an odd number of `\x27` characters.  The second
half of the claim does hold: with the closing brace removed the result is
`(false, "Unbalanced braces: 1 opening, 0 closing")`, the global brace
check firing first. -/
theorem validate_on_repo_test_inputs :
    validateCode
        (str "foreach var of varlist x1 x2 \x7b \n summarize \x60var\x27 \n \x7d") =
      (false, some (str "Unclosed quote on line 2")) ∧
    validateCode (str "foreach var of varlist x1 x2 \x7b \n summarize \x60var\x27") =
      (false, some (str "Unbalanced braces: 1 opening, 0 closing")) := by decide

/-- C2: on the repo test's text (one fenced block `regress y x`, one
inline span `\x60summarize var\x60`) the claim and the repo's own test
`test_extract_code_blocks` expect exactly two blocks, but
`extract_code_blocks` returns three: the inline single-backquote pass
rescans the full text, matches from the third backquote of the opening
fence to the first backquote of the closing fence (capturing
`stata\nregress y x`), and then from the last backquote of the closing
fence to the opening backquote of the inline span (capturing
`And inline:`), so the intended inline span is never captured. -/
theorem extract_on_repo_test_text :
    extract_code_blocks
        (str "\nHere is some code:\n\x60\x60\x60stata\nregress y x\n\x60\x60\x60\nAnd inline: \x60summarize var\x60\n        ") =
      [str "regress y x", str "stata\nregress y x", str "And inline:"] ∧
    (extract_code_blocks
        (str "\nHere is some code:\n\x60\x60\x60stata\nregress y x\n\x60\x60\x60\nAnd inline: \x60summarize var\x60\n        ")).length =
      3 := by decide

/-- C3 (counterexample): in `"if x\nthen y"` the word `if` occurs and the
word `then` occurs at a later position (on the next line), yet
`_contains_code` returns false: the pattern `\bif\b.*\bthen\b` is searched
without `re.DOTALL`, so `.*` cannot cross the newline, and no other
pattern of `stata_patterns` matches this text. -/
theorem contains_code_if_then_cross_line_cex :
    findWord (str "if") none (str "if x\nthen y") = true ∧
    findWord (str "then") none (str "if x\nthen y") = true ∧
    str "if x\nthen y" = str "if" ++ (str " x\n" ++ (str "then" ++ str " y")) ∧
    contains_code (str "if x\nthen y") = false := by decide

/-- C3 (amended): for every text whose lowercasing decomposes as
`a ++ "if" ++ b ++ "then" ++ c` where `a` ends at a word boundary, `b` is
non-empty, starts and ends with non-word characters and contains no
newline, and `c` starts at a word boundary, `looksLikeCode` returns true:
the token `if` followed later *on the same line* by the token `then`
triggers the heuristic (matching is case-insensitive). -/
theorem contains_code_if_then_same_line (t a b c2 : List Char)
    (ht : t.map Char.toLower = a ++ (str "if" ++ (b ++ (str "then" ++ c2))))
    (ha : nonWordEnd a = true) (hb : b ≠ []) (hbs : nonWordStart b = true)
    (hbl : ∀ ch ∈ b, ch ≠ '\n') (hbe : nonWordEnd b = true)
    (hc : nonWordStart c2 = true) :
    contains_code t = true := by
  have hmain : ifThenSearch none (t.map Char.toLower) = true := by
    rw [ht]
    apply ifThenSearch_found b c2 hb hbs hbl hbe hc a none
    · intro _
      rfl
    · intro x hx
      unfold nonWordEnd at ha
      rw [hx] at ha
      simpa using ha
  rw [contains_code_def, hmain]
  simp

/-- Witness for C3 (amended): `"IF x THEN y"` contains code. -/
theorem contains_code_if_then_same_line_witness :
    contains_code (str "IF x THEN y") = true :=
  contains_code_if_then_same_line (str "IF x THEN y") [] (str " x ") (str " y")
    (by decide) (by decide) (by decide) (by decide) (by decide) (by decide)
    (by decide)

/-- C4: for every prompt `t`, `enhance_prompt t` is the DomainContext
constant, then a blank line, then — exactly when `_contains_code t` is
true — the literal introductory line, then `t` unchanged; hence the
result always ends with `t` as a suffix and always begins with the full
DomainContext text. -/
theorem enhance_prompt_structure (t : List Char) :
    enhance_prompt t =
      stataContext ++ (str "\n\n" ++
        ((if contains_code t then codeIntro else []) ++ t)) ∧
    (∃ p, enhance_prompt t = p ++ t) ∧
    (∃ s2, enhance_prompt t = stataContext ++ s2) := by
  refine ⟨?_, ?_, ?_⟩
  · by_cases hcc : contains_code t = true <;>
      simp [enhance_prompt, hcc, List.append_assoc]
  · by_cases hcc : contains_code t = true
    · exact ⟨stataContext ++ (str "\n\n" ++ codeIntro),
        by simp [enhance_prompt, hcc, List.append_assoc]⟩
    · exact ⟨stataContext ++ str "\n\n",
        by simp [enhance_prompt, hcc, List.append_assoc]⟩
  · by_cases hcc : contains_code t = true
    · exact ⟨str "\n\n" ++ (codeIntro ++ t),
        by simp [enhance_prompt, hcc, List.append_assoc]⟩
    · exact ⟨str "\n\n" ++ t,
        by simp [enhance_prompt, hcc, List.append_assoc]⟩

/-- Witness for C4 at the prompt `"hello"`. -/
theorem enhance_prompt_structure_witness :
    ∃ p, enhance_prompt (str "hello") = p ++ str "hello" :=
  (enhance_prompt_structure (str "hello")).2.1

/-- C5: when the open- and close-brace counts agree, `validate_syntax`
performs exactly the 1-based first-bad-line quote scan the claim
describes (`validateQuoteSpec`, written from the claim's words): it fails
with "Unclosed quote on line N" on the first line whose trimmed form has
an odd count of `"` or of `\x27` characters and succeeds with no message
otherwise; and `validate_syntax('display "Hello world')` returns
`(false, "Unclosed quote on line 1")`. -/
theorem validate_quote_scan (code : List Char)
    (hbr : code.count lbrace = code.count rbrace) :
    validateCode code = validateQuoteSpec code ∧
    validateCode (str "display \x22Hello world") =
      (false, some (str "Unclosed quote on line 1")) := by
  constructor
  · have h2 : validateCode code = checkQuoteLines 1 (splitNl code) := by
      unfold validateCode
      simp [hbr]
    rw [h2]
    unfold validateQuoteSpec
    exact checkQuoteLines_eq_firstBad (splitNl code) 1
  · decide

/-- Witness for C5 at a brace-balanced input. -/
theorem validate_quote_scan_witness :
    (str "x \x22a\x22\ny").count lbrace = (str "x \x22a\x22\ny").count rbrace ∧
    validateCode (str "x \x22a\x22\ny") = validateQuoteSpec (str "x \x22a\x22\ny") :=
  ⟨by decide, (validate_quote_scan (str "x \x22a\x22\ny") (by decide)).1⟩

/-- C6: `format_code` implements exactly the per-line indentation loop
the claim describes (`formatCodeSpec`, written from the claim's words
with a signed level and an explicit `max 0` floor), and on
`"foreach var in x1 x2 \x7b\nsummarize \x60var\x27\n\x7d"` it yields three lines
with the second indented by exactly four spaces relative to the first and
third. -/
theorem format_code_meets_spec :
    (∀ code : List Char, format_code code = formatCodeSpec code) ∧
    format_code (str "foreach var in x1 x2 \x7b\nsummarize \x60var\x27\n\x7d") =
      str "foreach var in x1 x2 \x7b\n    summarize \x60var\x27\n\x7d" := by
  constructor
  · intro code
    exact congrArg joinNl (formatLinesSpec_eq (splitNl code) 0).symm
  · decide

/-- Witness for C6 at a concrete input. -/
theorem format_code_meets_spec_witness :
    format_code (str "a \x7b\nb\n\x7d") = formatCodeSpec (str "a \x7b\nb\n\x7d") :=
  format_code_meets_spec.1 (str "a \x7b\nb\n\x7d")

/-- C7 (counterexample): `"  x"` contains no extraction matches (no
backquote at all) and no formatting triggers (no brace, no loop keyword),
and `extract_code_blocks` does return `[]` on it — but `format_code`
returns `"x"`, not the input unchanged: the formatter strips each line's
leading and trailing whitespace even when nothing else changes. -/
theorem format_unchanged_cex :
    backquote ∉ str "  x" ∧ lbrace ∉ str "  x" ∧ rbrace ∉ str "  x" ∧
    extract_code_blocks (str "  x") = [] ∧
    format_code (str "  x") = str "x" ∧
    format_code (str "  x") ≠ str "  x" := by decide

/-- C7 (amended): on empty input `extract_code_blocks` returns the empty
sequence and `format_code` returns the input unchanged; on any input with
no matches (no backquote) `extract_code_blocks` returns the empty
sequence; `format_code` returns its input unchanged provided every line is
already equal to its trimmed form and triggers no indentation change.
(Both operations are total functions; neither signals an error.) -/
theorem extract_format_edge_cases :
    extract_code_blocks [] = [] ∧ format_code [] = [] ∧
    (∀ t : List Char, backquote ∉ t → extract_code_blocks t = []) ∧
    (∀ t : List Char, (∀ l ∈ splitNl t, pyStrip l = l ∧ incTrigger l = false) →
      format_code t = t) := by
  refine ⟨by decide, by decide, ?_, ?_⟩
  · exact extract_code_blocks_no_backquote
  · exact format_code_id

/-- Witness for C7 (amended) at concrete inputs. -/
theorem extract_format_edge_cases_witness :
    extract_code_blocks (str "no code here") = [] ∧
    format_code (str "a\nb") = str "a\nb" :=
  ⟨extract_format_edge_cases.2.2.1 (str "no code here") (by decide),
   extract_format_edge_cases.2.2.2 (str "a\nb") (by decide)⟩

/-- C8: every method of the helper (enhance, looksLikeCode,
extractCodeBlocks, formatCode, validateSyntax) leaves the state built at
construction (the command catalog and the DomainContext string) unchanged,
and running any method twice on the same input yields identical results
(result and post-state). -/
theorem helper_methods_pure (h : StataHelperState) (t : List Char) :
    ((h.enhancePromptM t).2 = h ∧ (h.containsCodeM t).2 = h ∧
     (h.extractCodeBlocksM t).2 = h ∧ (h.formatCodeM t).2 = h ∧
     (h.validateCodeM t).2 = h) ∧
    ((h.enhancePromptM t).2.enhancePromptM t = h.enhancePromptM t ∧
     (h.containsCodeM t).2.containsCodeM t = h.containsCodeM t ∧
     (h.extractCodeBlocksM t).2.extractCodeBlocksM t = h.extractCodeBlocksM t ∧
     (h.formatCodeM t).2.formatCodeM t = h.formatCodeM t ∧
     (h.validateCodeM t).2.validateCodeM t = h.validateCodeM t) :=
  ⟨⟨rfl, rfl, rfl, rfl, rfl⟩, ⟨rfl, rfl, rfl, rfl, rfl⟩⟩

/-- Witness for C8 at the freshly constructed helper. -/
theorem helper_methods_pure_witness :
    (StataHelperState.init.validateCodeM (str "x")).2 = StataHelperState.init :=
  (helper_methods_pure StataHelperState.init (str "x")).1.2.2.2.2

/-- C9: `format_code` is idempotent: formatting already-formatted code
changes nothing, because the indentation decisions depend only on each
line's trimmed content, which formatting preserves. -/
theorem format_code_idempotent (c : List Char) :
    format_code (format_code c) = format_code c := by
  have h1 : format_code (format_code c) =
      joinNl (formatLines 0 (formatLines 0 (splitNl c))) := by
    show joinNl (formatLines 0 (splitNl (format_code c))) = _
    rw [splitNl_format_code]
  rw [h1,
    formatLines_congr 0 (formatLines 0 (splitNl c)) (splitNl c)
      (formatLines_map_pyStrip 0 (splitNl c))]
  rfl

/-- Witness for C9 at a concrete input. -/
theorem format_code_idempotent_witness :
    format_code (format_code (str "foreach x \x7b\ny\n\x7d")) =
      format_code (str "foreach x \x7b\ny\n\x7d") :=
  format_code_idempotent (str "foreach x \x7b\ny\n\x7d")

/-- C10: `format_code` preserves the number of lines: the output split on
newline has exactly as many elements as the input split on newline. -/
theorem format_code_preserves_line_count (c : List Char) :
    (splitNl (format_code c)).length = (splitNl c).length := by
  rw [splitNl_format_code]
  exact formatLines_length 0 (splitNl c)

/-- Witness for C10 at a concrete input. -/
theorem format_code_preserves_line_count_witness :
    (splitNl (format_code (str "a\n\nb \x7b\nc\n\x7d"))).length =
      (splitNl (str "a\n\nb \x7b\nc\n\x7d")).length :=
  format_code_preserves_line_count (str "a\n\nb \x7b\nc\n\x7d")

